import Mathlib

/-!
Verification of the village-entry-api analytics core.

The repository contains several near-duplicate service variants:
index.js holds two historical versions (the second one defines getRows and
an /analysis countBy aggregator), src/unnamed/part_001 is the v8.0 service
and src/unnamed/part_002 the v7.5 service.  Where two variants define a
function of the same name with different behaviour, the Lean embedding
keeps both, suffixed _v8 (part_001) and _v75 (part_002).

JavaScript strings are modelled as Lean String via its List Char model;
the JS string operations used by the code (split on single characters,
trim, toLowerCase, includes) are defined below on the char list directly
so that every definition is executable and kernel-reducible.  JS unicode
subtleties beyond ASCII (full-unicode case folding and whitespace classes)
are outside the character range this dataset uses and are not modelled.
-/

/-- Single-character splitter used to model the JS regex splits
(split on each occurrence, keeping empty fragments, exactly like
String.prototype.split with a single-character-class regex). -/
def splitChars (p : Char → Bool) : List Char → List (List Char)
  | [] => [[]]
  | c :: t =>
    if p c then [] :: splitChars p t
    else
      match splitChars p t with
      | h :: r => (c :: h) :: r
      | [] => [[c]]

def dropWs (l : List Char) : List Char := l.dropWhile Char.isWhitespace

/-- Model of JS String.prototype.trim (ASCII whitespace). -/
def jsTrim (s : String) : String := ⟨(dropWs (dropWs s.data).reverse).reverse⟩

/-- Model of JS String.prototype.toLowerCase (ASCII case folding). -/
def jsToLower (s : String) : String := ⟨s.data.map Char.toLower⟩

/-- The separator class of the timestamp splits: /[\/ :]/ . -/
def sepChar (c : Char) : Bool := c = '/' || c = ' ' || c = ':'

/-- ts.split(/[\/ :]/) as used by toDate and both parseTimestamp variants. -/
def jsSplitTs (s : String) : List String := (splitChars sepChar s.data).map String.mk

/-- s.split on a single character c. -/
def splitOnChar (c : Char) (s : String) : List String :=
  (splitChars (fun x => x = c) s.data).map String.mk

def strContainsChar (s : String) (c : Char) : Bool := s.data.any (fun x => x = c)

def natOfDigits (l : List Char) : Nat := l.foldl (fun a c => a * 10 + (c.toNat - 48)) 0

/-- Numeric value of an all-digit token. -/
def digitsToInt (s : String) : Int := (natOfDigits s.data : Int)

def allDigits (s : String) : Bool := !s.data.isEmpty && s.data.all Char.isDigit

def parseIntCore (sign : Int) (l : List Char) : Option Int :=
  let ds := l.takeWhile Char.isDigit
  if ds.isEmpty then none else some (sign * (natOfDigits ds : Int))

/-- Model of JS parseInt in base 10: skip leading whitespace, optional
sign, then the longest digit prefix; none models NaN.  (The 0x prefix of
parseInt is not modelled; no call site feeds hexadecimal text.) -/
def parseIntJS (s : String) : Option Int :=
  match s.data.dropWhile Char.isWhitespace with
  | [] => none
  | c0 :: rest =>
    if c0 = '-' then parseIntCore (-1) rest
    else if c0 = '+' then parseIntCore 1 rest
    else parseIntCore 1 (c0 :: rest)

/-- parseInt(x) > n in JS: false when parseInt returns NaN. -/
def jsGtInt (o : Option Int) (n : Int) : Bool :=
  match o with
  | some v => n < v
  | none => false

/-- parseInt(x) <= n in JS: false when parseInt returns NaN. -/
def jsLeInt (o : Option Int) (n : Int) : Bool :=
  match o with
  | some v => v ≤ n
  | none => false

/-- A parsed calendar date (the Date objects this code builds carry a
time-of-day of midnight; only the calendar fields are compared). -/
structure CalDate where
  year : Int
  month : Int
  day : Int
deriving DecidableEq

def isLeapYear (y : Int) : Bool := (y % 4 == 0 && y % 100 != 0) || y % 400 == 0

def daysInMonth (y m : Int) : Int :=
  if m = 2 then (if isLeapYear y then 29 else 28)
  else if m = 4 || m = 6 || m = 9 || m = 11 then 30
  else 31

/-- One step of day-of-month normalization.  The date string grammars the
engine accepts bound the day to 1..31 and every month has at least 28
days, so the MakeDay normalization of an accepted date string overflows
by at most one month; this single carry step is therefore exactly the
engine's day-number arithmetic on that domain. -/
def rollOnce (y m d : Int) : CalDate :=
  if d ≤ daysInMonth y m then ⟨y, m, d⟩
  else if m = 12 then ⟨y + 1, 1, d - daysInMonth y m⟩
  else ⟨y, m + 1, d - daysInMonth y m⟩

/-- A calendar date from the numeric fields of a parsed date string: the
engine accepts months 1..12 and days 1..31 (anything else is Invalid
Date, modelled none) and then normalizes, so a day beyond the month
length rolls over into the following month instead of failing. -/
def jsParsedDate (y m d : Int) : Option CalDate :=
  if 1 ≤ m ∧ m ≤ 12 ∧ 1 ≤ d ∧ d ≤ 31 then some (rollOnce y m d) else none

/-- Rata-die day number of a proleptic-Gregorian date (origin year 0,
March-based internally). -/
def daysFromCivil (y m d : Int) : Int :=
  let yy := if m ≤ 2 then y - 1 else y
  let mm := if m ≤ 2 then m + 9 else m - 3
  365 * yy + yy.fdiv 4 - yy.fdiv 100 + yy.fdiv 400 + (153 * mm + 2).fdiv 5 + d - 1

/-- Inverse of daysFromCivil. -/
def civilFromDays (z : Int) : CalDate :=
  let era := z.fdiv 146097
  let doe := z - era * 146097
  let yoe := (doe - doe.fdiv 1460 + doe.fdiv 36524 - doe.fdiv 146096).fdiv 365
  let yr := yoe + era * 400
  let doy := doe - (365 * yoe + yoe.fdiv 4 - yoe.fdiv 100)
  let mp := (5 * doy + 2).fdiv 153
  let dd := doy - (153 * mp + 2).fdiv 5 + 1
  let mo := if mp < 10 then mp + 3 else mp - 9
  ⟨if mo ≤ 2 then yr + 1 else yr, mo, dd⟩

/-- Model of the numeric JS Date constructor new Date(year, monthIndex,
day): out-of-range fields do not fail, they roll over into adjacent
months and years (and 0..99 years map into the 1900s). -/
def jsDateCtor (y mIdx d : Int) : CalDate :=
  let yAdj := if 0 ≤ y ∧ y ≤ 99 then y + 1900 else y
  let ym := yAdj * 12 + mIdx
  let yq := ym.fdiv 12
  let mo := ym - 12 * yq + 1
  civilFromDays (daysFromCivil yq mo 1 + (d - 1))

/-- Model of JS Number() coercion on the string tokens fed to the Date
constructor: empty or all-whitespace text is 0, an optionally signed
digit string is its value, anything else is NaN (none).  (Decimal points
and hexadecimal forms never occur in these cells and are not modelled.) -/
def jsToNumber (s : String) : Option Int :=
  match dropWs (dropWs s.data).reverse |>.reverse with
  | [] => some 0
  | '-' :: ds => if !ds.isEmpty && ds.all Char.isDigit then some (-(natOfDigits ds : Int)) else none
  | '+' :: ds => if !ds.isEmpty && ds.all Char.isDigit then some ((natOfDigits ds : Int)) else none
  | ds => if ds.all Char.isDigit then some ((natOfDigits ds : Int)) else none

/-- Model of the JS engine Date string parsing, restricted to the numeric
grammars this codebase can produce: a dash form with a leading 4-digit
year (year-month-day) or a trailing 4-digit year (month-day-year), and a
slash form month/day/year with optional h:m:s time.  In every form the
month must be 1..12 and the day 1..31 (else Invalid Date, modelled
none), and a day beyond the length of its month is rolled over into the
following month by the engine's day-number normalization, so for
example the strings 2025-02-30 and 02/30/2025 both parse to
2025-03-02. -/
def jsNewDate (s : String) : Option CalDate :=
  if strContainsChar s '-' then
    match splitOnChar '-' s with
    | [p, q, r] =>
      if allDigits p ∧ allDigits q ∧ allDigits r then
        if p.length = 4 then jsParsedDate (digitsToInt p) (digitsToInt q) (digitsToInt r)
        else if r.length = 4 then jsParsedDate (digitsToInt r) (digitsToInt p) (digitsToInt q)
        else none
      else none
    | _ => none
  else
    match jsSplitTs s with
    | [mo, dy, yr] =>
      if allDigits mo ∧ allDigits dy ∧ allDigits yr ∧ yr.length = 4 then
        jsParsedDate (digitsToInt yr) (digitsToInt mo) (digitsToInt dy)
      else none
    | [mo, dy, yr, hh, mi, ss] =>
      if allDigits mo ∧ allDigits dy ∧ allDigits yr ∧ yr.length = 4
          ∧ allDigits hh ∧ allDigits mi ∧ allDigits ss
          ∧ digitsToInt hh ≤ 23 ∧ digitsToInt mi ≤ 59 ∧ digitsToInt ss ≤ 59 then
        jsParsedDate (digitsToInt yr) (digitsToInt mo) (digitsToInt dy)
      else none
    | _ => none

/-- toDate from src/index.js (first version, lines 32-36): split the cell
on /[/ :]/ and feed the tokens to the numeric Date constructor as
new Date(parts[2], parts[1] - 1, parts[0]); none models both the null
return (fewer than 3 tokens) and Invalid Date (non-numeric token). -/
def toDate (value : String) : Option CalDate :=
  match jsSplitTs value with
  | a :: b :: c :: _ =>
    match jsToNumber c, jsToNumber b, jsToNumber a with
    | some y, some m, some d => some (jsDateCtor y (m - 1) d)
    | _, _, _ => none
  | _ => none

/-- parseTimestamp from src/unnamed/part_001 (v8.0, lines 40-47): split on
/[\/ :]/; if parseInt of the first token exceeds 12, reparse as
year-month-day from the swapped tokens, otherwise hand the raw text to
the Date string parser (US month-first); Invalid Date becomes none. -/
def parseTimestamp_v8 (ts : String) : Option CalDate :=
  if ts = "" then none
  else
    match jsSplitTs ts with
    | a :: b :: c :: _ =>
      if jsGtInt (parseIntJS a) 12 then jsNewDate (c ++ "-" ++ b ++ "-" ++ a)
      else jsNewDate ts
    | _ => none

/-- parseTimestamp from src/unnamed/part_002 (v7.5, lines 43-52): like the
v8.0 variant but it first rejects any input whose first two tokens are
both numerically at most 12, and its month-first branch re-joins the
tokens with dashes instead of reusing the raw text. -/
def parseTimestamp_v75 (ts : String) : Option CalDate :=
  if ts = "" then none
  else
    match jsSplitTs ts with
    | a :: b :: c :: _ =>
      if jsLeInt (parseIntJS a) 12 && jsLeInt (parseIntJS b) 12 then none
      else if jsGtInt (parseIntJS a) 12 then jsNewDate (c ++ "-" ++ b ++ "-" ++ a)
      else jsNewDate (a ++ "-" ++ b ++ "-" ++ c)
    | _ => none

/-- The while loop of readSheet (part_001 lines 27-31, part_002 lines
28-32): append empty-string cells until the row is at least n long. -/
def padRow (n : Nat) (r : List String) : List String :=
  if r.length < n then padRow n (r ++ [""]) else r
termination_by n - r.length
decreasing_by simp [List.length_append]; omega

/-- The normalization step of readSheet in part_001 (lines 20-33) and
part_002 (lines 20-34), applied to the raw grid (res.data.values || []).
The JS code destructures [headers, ...rows] and then calls headers.map:
on an empty grid headers is undefined and the call throws, which none
models; otherwise headers are trimmed and rows padded. -/
def readSheetNorm (values : List (List String)) : Option (List String × List (List String)) :=
  match values with
  | [] => none
  | headers :: rows =>
    let cleanHeaders := headers.map jsTrim
    some (cleanHeaders, rows.map (fun r => padRow cleanHeaders.length r))

/-- Object.fromEntries overwrite step: later entries with an existing key
replace its value in place, new keys append. -/
def upsert (l : List (String × String)) (k v : String) : List (String × String) :=
  match l with
  | [] => [(k, v)]
  | (k0, v0) :: t => if k0 = k then (k0, v) :: t else (k0, v0) :: upsert t k v

/-- Model of Object.fromEntries on string keys, as an insertion-ordered
association list.  (The JS reordering of integer-like property keys ahead
of the others is not modelled; no header in this dataset is numeric.) -/
def jsFromEntries (l : List (String × String)) : List (String × String) :=
  l.foldl (fun acc kv => upsert acc kv.1 kv.2) []

/-- One record of getRows (src/index.js second version, line 281):
Object.fromEntries(r.map((v, i) => [headers[i], v])); reading headers
past their end gives undefined, which the property key coerces to the
text undefined. -/
def getRowsRecord (headers row : List String) : List (String × String) :=
  jsFromEntries (row.enum.map (fun p => (headers.getD p.1 "undefined", p.2)))

/-- getRows (src/index.js second version, lines 271-282) after the fetch:
grids with at most one row give [], otherwise each data row becomes a
header-keyed record. -/
def getRows (values : List (List String)) : List (List (String × String)) :=
  if values.length ≤ 1 then []
  else
    match values with
    | [] => []
    | headers :: rest => rest.map (fun r => getRowsRecord headers r)

/-- findIndex on a string list: first index satisfying p, else -1. -/
def jsFindIndex (p : String → Bool) : List String → Int
  | [] => -1
  | h :: t =>
    if p h then 0
    else
      let r := jsFindIndex p t
      if r = -1 then -1 else r + 1

/-- Header-name normalization of findColumn in part_002 (lines 37-41):
lower-case then trim only. -/
def norm_v75 (s : String) : String := jsTrim (jsToLower s)

/-- One collapse pass of replace(/\s+/g, " "): every maximal run of
whitespace becomes a single space. -/
def collapseWsAux : List Char → List Char
  | [] => []
  | [c] => if c.isWhitespace then [' '] else [c]
  | c :: c2 :: t =>
    if c.isWhitespace && c2.isWhitespace then collapseWsAux (c2 :: t)
    else (if c.isWhitespace then ' ' else c) :: collapseWsAux (c2 :: t)

def collapseWs (s : String) : String := ⟨collapseWsAux s.data⟩

/-- Header-name normalization of findColumn in part_001 (lines 34-39):
lower-case, collapse whitespace runs, then trim. -/
def norm_v8 (s : String) : String := jsTrim (collapseWs (jsToLower s))

/-- findColumn from part_002 (v7.5): trim/case-fold comparison only. -/
def findColumn_v75 (headers : List String) (name : String) : Int :=
  jsFindIndex (fun h => norm_v75 h == norm_v75 name) headers

/-- findColumn from part_001 (v8.0): also collapses internal whitespace. -/
def findColumn_v8 (headers : List String) (name : String) : Int :=
  jsFindIndex (fun h => norm_v8 h == norm_v8 name) headers

/-- counts[k] = (counts[k] || 0) + 1 on an insertion-ordered bucket list. -/
def bump (l : List (String × Nat)) (k : String) : List (String × Nat) :=
  match l with
  | [] => [(k, 1)]
  | (k0, c) :: t => if k0 = k then (k0, c + 1) :: t else (k0, c) :: bump t k

/-- Total of all bucket counts. -/
def sumCounts (l : List (String × Nat)) : Nat := l.foldr (fun p acc => p.2 + acc) 0

/-- Count held by one label across the bucket list. -/
def countOf (l : List (String × Nat)) (lab : String) : Nat :=
  l.foldr (fun p acc => if p.1 = lab then p.2 + acc else acc) 0

/-- Occurrences of one label in a label list. -/
def countLabel (lab : String) (l : List String) : Nat :=
  l.foldr (fun x acc => if x = lab then acc + 1 else acc) 0

/-- Stable insertion for the descending-by-count sort: a new entry goes
after every entry with at least its count. -/
def insertDesc (x : String × Nat) : List (String × Nat) → List (String × Nat)
  | [] => [x]
  | y :: t => if y.2 < x.2 then x :: y :: t else y :: insertDesc x t

/-- Model of the stable JS sort((a, b) => b.count - a.count): descending
by count, ties kept in pre-sort order. -/
def sortDesc (l : List (String × Nat)) : List (String × Nat) :=
  l.foldl (fun acc x => insertDesc x acc) []

/-- The (r[key] || "Unknown") substitution of the /analysis countBy
(src/index.js second version, line 320): absent and empty-string cells
become the Unknown label, all before trimming. -/
def jsOrUnknown (v : Option String) : String :=
  match v with
  | none => "Unknown"
  | some s => if s = "" then "Unknown" else s

/-- The bucket label countBy assigns a record value: substitute then trim. -/
def bucketLabel (v : Option String) : String := jsTrim (jsOrUnknown v)

/-- countBy from the /analysis endpoint (src/index.js second version,
lines 317-326): count records by the bucket label of their cell at the
key, then sort buckets descending by count. -/
def countBy (data : List (List (String × String))) (key : String) : List (String × Nat) :=
  sortDesc (data.foldl (fun acc r => bump acc (bucketLabel (r.lookup key))) [])

/-- The name-fragment separators of the /handlers endpoint (part_002 line
92): split on comma and ampersand only. -/
def handlerSep (c : Char) : Bool := c = ',' || c = '&'

/-- The joined cell text, handledBy then a space then sales, split on
/,|&/ (part_002 line 92). -/
def handlerNames (hby sales : String) : List String :=
  (splitChars handlerSep (hby.data ++ ' ' :: sales.data)).map String.mk

/-- The trimmed nonempty fragments that /handlers actually counts. -/
def handlerFragments (rows : List (String × String)) : List String :=
  rows.flatMap (fun r => ((handlerNames r.1 r.2).map jsTrim).filter (fun n => n ≠ ""))

/-- The bucket-building loop of /handlers (part_002 lines 90-97). -/
def handlersCounts (rows : List (String × String)) : List (String × Nat) :=
  rows.foldl
    (fun acc r =>
      (handlerNames r.1 r.2).foldl
        (fun acc2 n => if jsTrim n ≠ "" then bump acc2 (jsTrim n) else acc2) acc)
    []

/-- The /handlers leaderboard (part_002 lines 99-101): buckets sorted
descending by count by the stable JS sort. -/
def handlersLeaderboard (rows : List (String × String)) : List (String × Nat) :=
  sortDesc (handlersCounts rows)

/-- Substring test on char lists, the model of JS String.includes and of
testing an alternation of literal words. -/
def listHasInfix (pat : List Char) : List Char → Bool
  | [] => pat.isEmpty
  | c :: t => pat.isPrefixOf (c :: t) || listHasInfix pat t

def strIncludes (s pat : String) : Bool := listHasInfix pat.data s.data

/-- The positive keyword test of getSentiment (part_001 line 52):
/booked|positive|interested|good/ on the lower-cased text. -/
def posHit (s : String) : Bool :=
  strIncludes s "booked" || strIncludes s "positive" || strIncludes s "interested" || strIncludes s "good"

/-- The follow-up keyword test of getSentiment (part_001 line 53). -/
def followHit (s : String) : Bool :=
  strIncludes s "follow" || strIncludes s "call" || strIncludes s "pending" || strIncludes s "waiting"

/-- getSentiment from part_001 (lines 49-55): empty text is Neutral, a
positive keyword wins over a follow-up keyword, otherwise Neutral. -/
def getSentiment (t : String) : String :=
  if t = "" then "Neutral"
  else
    if posHit (jsToLower t) then "Positive"
    else if followHit (jsToLower t) then "Follow-up Required"
    else "Neutral"

/-- Milliseconds per day, the unit of the Date comparisons. -/
def msPerDay : Int := 86400000

/-- withinRange from part_002 (lines 54-56): date && date >= from &&
date <= to; a null date never matches. -/
def withinRange (date : Option Int) (lo hi : Int) : Bool :=
  match date with
  | none => false
  | some d => decide (lo ≤ d) && decide (d ≤ hi)

/-- The /period filter (src/index.js lines 58-73, part_002 lines 64-81):
cutoff is now moved back the requested number of days, and a parsed
record date matches when it lies in [cutoff, now]. -/
def matchesPeriodDays (now : Int) (days : Int) (d : Option Int) : Bool :=
  withinRange d (now - days * msPerDay) now

theorem String.data_app (s t : String) : (s ++ t).data = s.data ++ t.data := rfl

theorem splitChars_nosep (p : Char → Bool) (xs : List Char)
    (h : ∀ x ∈ xs, p x = false) : splitChars p xs = [xs] := by
  induction xs with
  | nil => rfl
  | cons c t ih =>
    have hc : p c = false := h c (List.mem_cons_self c t)
    have ht : ∀ x ∈ t, p x = false := fun x hx => h x (List.mem_cons_of_mem _ hx)
    simp [splitChars, hc, ih ht]

theorem splitChars_sep_append (p : Char → Bool) (xs : List Char) (c : Char) (ys : List Char)
    (hxs : ∀ x ∈ xs, p x = false) (hc : p c = true) :
    splitChars p (xs ++ c :: ys) = xs :: splitChars p ys := by
  induction xs with
  | nil => simp [splitChars, hc]
  | cons x t ih =>
    have hx : p x = false := hxs x (List.mem_cons_self x t)
    have ht : ∀ y ∈ t, p y = false := fun y hy => hxs y (List.mem_cons_of_mem _ hy)
    simp [splitChars, hx, ih ht]

theorem digit_char_ne (x c : Char) (hx : x.isDigit = true) (hc : c.isDigit = false) : x ≠ c := by
  intro h
  subst h
  rw [hx] at hc
  cases hc

theorem digit_not_sep (x : Char) (hx : x.isDigit = true) : sepChar x = false := by
  cases hxs : sepChar x with
  | false => rfl
  | true =>
    exfalso
    simp only [sepChar, Bool.or_eq_true, decide_eq_true_eq] at hxs
    rcases hxs with (h | h) | h <;> subst h <;> exact absurd hx (by decide)

theorem takeWhile_all {p : Char → Bool} (l : List Char) (h : l.all p = true) :
    l.takeWhile p = l := by
  induction l with
  | nil => rfl
  | cons c t ih =>
    simp only [List.all_cons, Bool.and_eq_true] at h
    simp [List.takeWhile_cons, h.1, ih h.2]

theorem parseIntJS_digits (s : String) (h1 : s.data.all Char.isDigit = true)
    (h2 : s.data ≠ []) : parseIntJS s = some (digitsToInt s) := by
  unfold parseIntJS
  match hd : s.data with
  | [] => exact absurd hd h2
  | c0 :: rest =>
    rw [hd] at h1
    simp only [List.all_cons, Bool.and_eq_true] at h1
    have hws : c0.isWhitespace = false := by
      cases hw : c0.isWhitespace with
      | false => rfl
      | true =>
        exfalso
        simp only [Char.isWhitespace] at hw
        simp only [Bool.or_eq_true, decide_eq_true_eq] at hw
        rcases hw with ((h | h) | h) | h <;> subst h <;> exact absurd h1.1 (by decide)
    rw [List.dropWhile_cons, hws]
    simp only [Bool.false_eq_true, if_false]
    rw [if_neg (digit_char_ne c0 '-' h1.1 (by decide)),
        if_neg (digit_char_ne c0 '+' h1.1 (by decide))]
    unfold parseIntCore
    have hall : (c0 :: rest).all Char.isDigit = true := by
      simp [List.all_cons, h1.1, h1.2]
    rw [takeWhile_all _ hall]
    simp [digitsToInt, natOfDigits, hd]

/-- An all-digit, nonempty token. -/
def digitTok (s : String) : Prop := s.data ≠ [] ∧ s.data.all Char.isDigit = true

theorem digitTok_mem (s : String) (d : digitTok s) : ∀ x ∈ s.data, x.isDigit = true :=
  fun x hx => List.all_eq_true.mp d.2 x hx

theorem splitChars_three (pch : Char → Bool) (a b c : List Char) (s1 s2 : Char)
    (ha : ∀ x ∈ a, pch x = false) (hb : ∀ x ∈ b, pch x = false)
    (hc : ∀ x ∈ c, pch x = false) (hs1 : pch s1 = true) (hs2 : pch s2 = true) :
    splitChars pch (a ++ s1 :: (b ++ s2 :: c)) = [a, b, c] := by
  rw [splitChars_sep_append pch a s1 _ ha hs1,
      splitChars_sep_append pch b s2 _ hb hs2,
      splitChars_nosep pch c hc]

theorem three_data (a b c : String) (s1 s2 : String) :
    (a ++ s1 ++ b ++ s2 ++ c).data = a.data ++ (s1.data ++ (b.data ++ (s2.data ++ c.data))) := by
  simp [String.data_app, List.append_assoc]

theorem jsSplitTs_three (a b c : String) (da : digitTok a) (db : digitTok b) (dc : digitTok c) :
    jsSplitTs (a ++ "/" ++ b ++ "/" ++ c) = [a, b, c] := by
  unfold jsSplitTs
  have hd : (a ++ "/" ++ b ++ "/" ++ c).data = a.data ++ '/' :: (b.data ++ '/' :: c.data) := by
    rw [three_data]; rfl
  rw [hd, splitChars_three sepChar a.data b.data c.data '/' '/'
    (fun x hx => digit_not_sep x (digitTok_mem a da x hx))
    (fun x hx => digit_not_sep x (digitTok_mem b db x hx))
    (fun x hx => digit_not_sep x (digitTok_mem c dc x hx)) (by decide) (by decide)]
  rfl

theorem digit_not_dash (x : Char) (hx : x.isDigit = true) : (decide (x = '-')) = false := by
  have := digit_char_ne x '-' hx (by decide)
  simp [this]

theorem splitDash_three (p q r : String) (dp : digitTok p) (dq : digitTok q) (dr : digitTok r) :
    splitOnChar '-' (p ++ "-" ++ q ++ "-" ++ r) = [p, q, r] := by
  unfold splitOnChar
  have hd : (p ++ "-" ++ q ++ "-" ++ r).data = p.data ++ '-' :: (q.data ++ '-' :: r.data) := by
    rw [three_data]; rfl
  rw [hd, splitChars_three (fun x => x = '-') p.data q.data r.data '-' '-'
    (fun x hx => digit_not_dash x (digitTok_mem p dp x hx))
    (fun x hx => digit_not_dash x (digitTok_mem q dq x hx))
    (fun x hx => digit_not_dash x (digitTok_mem r dr x hx)) (by decide) (by decide)]
  rfl

theorem containsDash_three (p q r : String) :
    strContainsChar (p ++ "-" ++ q ++ "-" ++ r) '-' = true := by
  unfold strContainsChar
  rw [three_data]
  simp

theorem noDash_slash (a b c : String) (da : digitTok a) (db : digitTok b) (dc : digitTok c) :
    strContainsChar (a ++ "/" ++ b ++ "/" ++ c) '-' = false := by
  unfold strContainsChar
  rw [three_data]
  simp only [List.any_append, List.any_cons, Bool.or_eq_false_iff]
  refine ⟨?_, ⟨by decide, ?_, by decide, ?_⟩⟩ <;>
    · rw [List.any_eq_false]
      intro x hx
      simp [digit_not_dash x (digitTok_mem _ (by assumption) x hx)]

theorem allDigits_of_tok (s : String) (d : digitTok s) : allDigits s = true := by
  unfold allDigits
  rcases d with ⟨h1, h2⟩
  simp [h2, List.isEmpty_iff, h1]

theorem slash3_ne_empty (a b c : String) : (a ++ "/" ++ b ++ "/" ++ c) ≠ "" := by
  intro h
  have hd := congrArg String.data h
  rw [three_data] at hd
  simp at hd

theorem daysInMonth_le (y m : Int) : daysInMonth y m ≤ 31 := by
  unfold daysInMonth
  split_ifs <;> omega

theorem rollOnce_exact (y m d : Int) (h : d ≤ daysInMonth y m) :
    rollOnce y m d = ⟨y, m, d⟩ := by
  unfold rollOnce
  rw [if_pos h]

theorem jsParsedDate_exact (y m d : Int) (h1 : 1 ≤ m) (h2 : m ≤ 12) (h3 : 1 ≤ d)
    (h4 : d ≤ daysInMonth y m) :
    jsParsedDate y m d = some ⟨y, m, d⟩ := by
  unfold jsParsedDate
  have h31 := daysInMonth_le y m
  rw [if_pos ⟨h1, h2, h3, by omega⟩, rollOnce_exact y m d h4]

theorem jsParsedDate_none_iff (y m d : Int) :
    jsParsedDate y m d = none ↔ ¬(1 ≤ m ∧ m ≤ 12 ∧ 1 ≤ d ∧ d ≤ 31) := by
  unfold jsParsedDate
  by_cases h : 1 ≤ m ∧ m ≤ 12 ∧ 1 ≤ d ∧ d ≤ 31
  · rw [if_pos h]
    simp [h]
  · rw [if_neg h]
    simp [h]

theorem jsNewDate_dash (p q r : String) (dp : digitTok p) (dq : digitTok q) (dr : digitTok r)
    (hp4 : p.length = 4) :
    jsNewDate (p ++ "-" ++ q ++ "-" ++ r) = jsParsedDate (digitsToInt p) (digitsToInt q) (digitsToInt r) := by
  have h1 := containsDash_three p q r
  have h2 := splitDash_three p q r dp dq dr
  simp only [jsNewDate, h1, h2, allDigits_of_tok p dp, allDigits_of_tok q dq,
    allDigits_of_tok r dr, hp4, if_true, and_self, eq_self_iff_true]

theorem jsNewDate_slash3 (a b c : String) (da : digitTok a) (db : digitTok b) (dc : digitTok c)
    (hc4 : c.length = 4) :
    jsNewDate (a ++ "/" ++ b ++ "/" ++ c) = jsParsedDate (digitsToInt c) (digitsToInt a) (digitsToInt b) := by
  have h1 := noDash_slash a b c da db dc
  have h2 := jsSplitTs_three a b c da db dc
  simp only [jsNewDate, h1, h2, allDigits_of_tok a da, allDigits_of_tok b db,
    allDigits_of_tok c dc, hc4, Bool.false_eq_true, if_false, if_true, and_self, eq_self_iff_true]

theorem parse_v8_eval (a b c : String) (da : digitTok a) (db : digitTok b) (dc : digitTok c)
    (hc4 : c.length = 4) :
    parseTimestamp_v8 (a ++ "/" ++ b ++ "/" ++ c) =
      if 12 < digitsToInt a then jsParsedDate (digitsToInt c) (digitsToInt b) (digitsToInt a)
      else jsParsedDate (digitsToInt c) (digitsToInt a) (digitsToInt b) := by
  have hne := slash3_ne_empty a b c
  have hs := jsSplitTs_three a b c da db dc
  have hpa := parseIntJS_digits a da.2 da.1
  simp only [parseTimestamp_v8, if_neg hne, hs, hpa, jsGtInt]
  by_cases h12 : 12 < digitsToInt a
  · simp only [decide_eq_true h12, if_true]
    rw [if_pos h12, jsNewDate_dash c b a dc db da hc4]
  · simp only [decide_eq_false h12, Bool.false_eq_true, if_false]
    rw [if_neg h12, jsNewDate_slash3 a b c da db dc hc4]

theorem parse_v75_reject (a b c : String) (da : digitTok a) (db : digitTok b) (dc : digitTok c)
    (h1 : digitsToInt a ≤ 12) (h2 : digitsToInt b ≤ 12) :
    parseTimestamp_v75 (a ++ "/" ++ b ++ "/" ++ c) = none := by
  have hne := slash3_ne_empty a b c
  have hs := jsSplitTs_three a b c da db dc
  simp only [parseTimestamp_v75, if_neg hne, hs, parseIntJS_digits a da.2 da.1,
    parseIntJS_digits b db.2 db.1, jsLeInt, decide_eq_true h1, decide_eq_true h2,
    Bool.and_self, if_true]

theorem parse_v75_swap (a b c : String) (da : digitTok a) (db : digitTok b) (dc : digitTok c)
    (hc4 : c.length = 4) (h12 : 12 < digitsToInt a) :
    parseTimestamp_v75 (a ++ "/" ++ b ++ "/" ++ c) =
      jsParsedDate (digitsToInt c) (digitsToInt b) (digitsToInt a) := by
  have hne := slash3_ne_empty a b c
  have hs := jsSplitTs_three a b c da db dc
  simp only [parseTimestamp_v75, if_neg hne, hs, parseIntJS_digits a da.2 da.1,
    parseIntJS_digits b db.2 db.1, jsLeInt, jsGtInt]
  have hd1 : decide (digitsToInt a ≤ 12) = false := by simp; omega
  have hd2 : decide (12 < digitsToInt a) = true := decide_eq_true h12
  simp only [hd1, hd2, Bool.false_and, Bool.false_eq_true, if_false, if_true]
  rw [jsNewDate_dash c b a dc db da hc4]

instance (s : String) : Decidable (digitTok s) := by
  unfold digitTok
  infer_instance

/-- Claim C1 counterexample: on the ambiguous input 03/04/2025 (both
tokens at most 12) the v7.5 parseTimestamp returns absent instead of
parsing it as month=3, day=4, year=2025, so the claimed MM/DD default
does not hold for that variant; the v8.0 variant does parse it. -/
theorem c1_ambiguous_rejected_counterexample :
    parseTimestamp_v75 "03/04/2025" = none ∧ parseTimestamp_v8 "03/04/2025" = some ⟨2025, 3, 4⟩ := by
  decide

/-- Claim C1 (amended): for numeric date tokens with a 4-digit year, the
v8.0 parseTimestamp swaps day and month exactly when the first token
exceeds 12 and otherwise passes the first token as month and the second
as day into the engine date construction, so whenever those fields form
a real calendar date the parsed date is exactly those fields, and the
ambiguous 03/04/2025 parses as 2025-03-04; a day of 1..31 beyond the
month length is not rejected but rolled into the following month, as in
02/30/2025 parsing to 2025-03-02.  The v7.5 variant swaps the same way
when the first token exceeds 12 but rejects (absent) every input whose
first two tokens are both at most 12 instead of applying the MM/DD
default. -/
theorem c1_parse_swap_amended :
    (∀ a b c : String, digitTok a → digitTok b → digitTok c → c.length = 4 →
      (parseTimestamp_v8 (a ++ "/" ++ b ++ "/" ++ c) =
        if 12 < digitsToInt a then jsParsedDate (digitsToInt c) (digitsToInt b) (digitsToInt a)
        else jsParsedDate (digitsToInt c) (digitsToInt a) (digitsToInt b))
      ∧ (digitsToInt a ≤ 12 → digitsToInt b ≤ 12 →
          parseTimestamp_v75 (a ++ "/" ++ b ++ "/" ++ c) = none)
      ∧ (12 < digitsToInt a →
          parseTimestamp_v75 (a ++ "/" ++ b ++ "/" ++ c) =
            jsParsedDate (digitsToInt c) (digitsToInt b) (digitsToInt a)))
    ∧ (∀ y m d : Int, 1 ≤ m → m ≤ 12 → 1 ≤ d → d ≤ daysInMonth y m →
        jsParsedDate y m d = some ⟨y, m, d⟩)
    ∧ parseTimestamp_v8 "03/04/2025" = some ⟨2025, 3, 4⟩
    ∧ parseTimestamp_v8 "13/04/2025" = some ⟨2025, 4, 13⟩
    ∧ parseTimestamp_v75 "13/04/2025" = some ⟨2025, 4, 13⟩
    ∧ parseTimestamp_v8 "02/30/2025" = some ⟨2025, 3, 2⟩ := by
  refine ⟨fun a b c da db dc hc4 => ⟨parse_v8_eval a b c da db dc hc4,
    fun h1 h2 => parse_v75_reject a b c da db dc h1 h2,
    fun h12 => parse_v75_swap a b c da db dc hc4 h12⟩,
    jsParsedDate_exact, by decide, by decide, by decide, by decide⟩

theorem c1_parse_swap_amended_witness :
    parseTimestamp_v8 ("13" ++ "/" ++ "04" ++ "/" ++ "2025") =
      (if 12 < digitsToInt "13" then jsParsedDate (digitsToInt "2025") (digitsToInt "04") (digitsToInt "13")
       else jsParsedDate (digitsToInt "2025") (digitsToInt "13") (digitsToInt "04"))
    ∧ parseTimestamp_v75 ("03" ++ "/" ++ "04" ++ "/" ++ "2025") = none
    ∧ jsParsedDate 2025 4 13 = some ⟨2025, 4, 13⟩ := by
  have h := c1_parse_swap_amended.1
  exact ⟨(h "13" "04" "2025" (by decide) (by decide) (by decide) (by decide)).1,
    (h "03" "04" "2025" (by decide) (by decide) (by decide) (by decide)).2.1 (by decide) (by decide),
    c1_parse_swap_amended.2.1 2025 4 13 (by decide) (by decide) (by decide) (by decide)⟩

/-- Claim C3 counterexample: for 25/13/2025 10:00:00 the toDate parser of
src/index.js does not return absent; the numeric Date constructor rolls
the out-of-range fields over to the real date 2026-01-25. -/
theorem c3_toDate_rollover_counterexample :
    toDate "25/13/2025 10:00:00" = some ⟨2026, 1, 25⟩ := by decide

/-- Claim C3 (amended): the string-parsing timestamp resolvers
(parseTimestamp of v8.0 and v7.5) never throw (they are total, with
absence the only failure signal) and return absent for empty input and
whenever the date fields fall outside the ranges the engine accepts
(month 1..12, day 1..31) - as with month 13 after the swap in the worked
example 25/13/2025 10:00:00.  But absent is not returned for every
calendar-invalid date: a day of 1..31 beyond the month length is rolled
over into the following month, so 30/02/2025 parses to 2025-03-02 in
both variants, and the toDate parser of src/index.js likewise feeds its
fields to the numeric Date constructor, which rolls arbitrary
out-of-range fields over instead of returning absent. -/
theorem c3_absent_amended :
    parseTimestamp_v75 "25/13/2025 10:00:00" = none
    ∧ parseTimestamp_v8 "25/13/2025 10:00:00" = none
    ∧ parseTimestamp_v8 "" = none ∧ parseTimestamp_v75 "" = none ∧ toDate "" = none
    ∧ parseTimestamp_v8 "30/02/2025" = some ⟨2025, 3, 2⟩
    ∧ parseTimestamp_v75 "30/02/2025" = some ⟨2025, 3, 2⟩
    ∧ (∀ a b c : String, digitTok a → digitTok b → digitTok c → c.length = 4 →
        12 < digitsToInt a →
        (parseTimestamp_v8 (a ++ "/" ++ b ++ "/" ++ c) = none
          ↔ ¬(1 ≤ digitsToInt b ∧ digitsToInt b ≤ 12
              ∧ 1 ≤ digitsToInt a ∧ digitsToInt a ≤ 31))
        ∧ parseTimestamp_v75 (a ++ "/" ++ b ++ "/" ++ c) =
            parseTimestamp_v8 (a ++ "/" ++ b ++ "/" ++ c)) := by
  refine ⟨by decide, by decide, by decide, by decide, by decide, by decide, by decide, ?_⟩
  intro a b c da db dc hc4 h12
  have h8 := parse_v8_eval a b c da db dc hc4
  rw [if_pos h12] at h8
  constructor
  · rw [h8]
    exact jsParsedDate_none_iff (digitsToInt c) (digitsToInt b) (digitsToInt a)
  · rw [h8, parse_v75_swap a b c da db dc hc4 h12]

theorem c3_absent_amended_witness :
    (parseTimestamp_v8 ("25" ++ "/" ++ "13" ++ "/" ++ "2025") = none
      ↔ ¬(1 ≤ digitsToInt "13" ∧ digitsToInt "13" ≤ 12
          ∧ 1 ≤ digitsToInt "25" ∧ digitsToInt "25" ≤ 31))
    ∧ parseTimestamp_v75 ("25" ++ "/" ++ "13" ++ "/" ++ "2025") =
        parseTimestamp_v8 ("25" ++ "/" ++ "13" ++ "/" ++ "2025") :=
  c3_absent_amended.2.2.2.2.2.2.2 "25" "13" "2025"
    (by decide) (by decide) (by decide) (by decide) (by decide)

/-- Claim C4: the claim is right and the code is wrong.  On an empty grid
(res.data.values || [] evaluating to []) the readSheet normalization of
v8.0/v7.5 destructures [headers, ...rows] = [] and then calls
headers.map on undefined, which throws a TypeError (modelled by none)
instead of returning an empty header list and empty record list; the
getRows variant of src/index.js does return the empty record list. -/
theorem c4_empty_grid_faults : readSheetNorm [] = none ∧ getRows [] = [] := by
  decide

theorem padRow_eq (n : Nat) (r : List String) :
    padRow n r = r ++ List.replicate (n - r.length) "" := by
  generalize hk : n - r.length = k
  induction k generalizing r with
  | zero =>
    rw [padRow, if_neg (by omega)]
    simp
  | succ k ih =>
    have hlt : r.length < n := by omega
    rw [padRow, if_pos hlt, ih (r ++ [""]) (by simp [List.length_append]; omega),
      List.append_assoc]
    simp [List.replicate_succ]

theorem upsert_fresh (l : List (String × String)) (k v : String)
    (h : ∀ p ∈ l, p.1 ≠ k) : upsert l k v = l ++ [(k, v)] := by
  induction l with
  | nil => rfl
  | cons p t ih =>
    have hp : p.1 ≠ k := h p (List.mem_cons_self p t)
    rw [upsert]
    simp only [if_neg hp]
    rw [ih (fun q hq => h q (List.mem_cons_of_mem _ hq))]
    rfl

theorem foldl_upsert_nodup : ∀ (l acc : List (String × String)),
    ((acc ++ l).map Prod.fst).Nodup →
    l.foldl (fun a kv => upsert a kv.1 kv.2) acc = acc ++ l := by
  intro l
  induction l with
  | nil => intro acc _; simp
  | cons kv t ih =>
    intro acc hnd
    have hfresh : ∀ p ∈ acc, p.1 ≠ kv.1 := by
      intro p hp heq
      have h1 : p.1 ∈ acc.map Prod.fst := List.mem_map_of_mem _ hp
      have h2 : kv.1 ∈ (kv :: t).map Prod.fst := by simp
      rw [List.map_append, List.nodup_append] at hnd
      exact hnd.2.2 h1 (heq ▸ h2)
    rw [List.foldl_cons, upsert_fresh acc kv.1 kv.2 hfresh]
    have hnd2 : (((acc ++ [kv]) ++ t).map Prod.fst).Nodup := by
      simpa [List.append_assoc] using hnd
    rw [ih (acc ++ [kv]) hnd2]
    simp

theorem enumFrom_keys (headers : List String) : ∀ (row : List String) (k : Nat),
    k + row.length ≤ headers.length →
    (List.enumFrom k row).map (fun p => headers.getD p.1 "undefined") =
      (headers.drop k).take row.length := by
  intro row
  induction row with
  | nil => intro k _; simp
  | cons x t ih =>
    intro k h
    have hk : k < headers.length := by simp at h; omega
    simp only [List.enumFrom, List.map_cons, List.length_cons]
    rw [ih (k + 1) (by simp at h ⊢; omega), List.getD_eq_getElem headers "undefined" hk]
    conv_rhs => rw [List.drop_eq_getElem_cons hk, List.take_succ_cons]

/-- Claim C2 counterexample: a data row shorter than the header row is not
right-padded by the getRows normalization of src/index.js; its record
keeps only the keys of the cells present (and under the raw, untrimmed
header), so the key list is not the trimmed header row. -/
theorem c2_getRows_short_row_counterexample :
    getRows [["H1 ", "H2"], ["a"]] = [[("H1 ", "a")]]
    ∧ [("H1 ", "a")].map Prod.fst ≠ ["H1", "H2"] := by
  decide

/-- Claim C2 (amended): in the readSheet normalization of v8.0/v7.5 the
headers are trimmed and every data row is right-padded with empty
strings up to the header length (rows already as long keep all their
cells, so longer rows are not truncated and nothing crashes); in the
getRows normalization of src/index.js, however, a record carries exactly
one key per cell of its row, keyed by the raw untrimmed headers, so a
short row produces a record missing the trailing header keys. -/
theorem c2_normalize_padding_amended :
    (∀ (n : Nat) (r : List String), padRow n r = r ++ List.replicate (n - r.length) "")
    ∧ (∀ (headers : List String) (rows : List (List String)),
        readSheetNorm (headers :: rows) =
          some (headers.map jsTrim,
            rows.map (fun r => r ++ List.replicate ((headers.map jsTrim).length - r.length) "")))
    ∧ (∀ (headers row : List String), row.length ≤ headers.length →
        ((headers.take row.length).Nodup) →
        (getRowsRecord headers row).map Prod.fst = headers.take row.length) := by
  refine ⟨padRow_eq, ?_, ?_⟩
  · intro headers rows
    simp [readSheetNorm, padRow_eq]
  · intro headers row hlen hnd
    unfold getRowsRecord
    have hkeys : (row.enum.map (fun p => (headers.getD p.1 "undefined", p.2))).map Prod.fst
        = headers.take row.length := by
      rw [List.map_map]
      have h0 := enumFrom_keys headers row 0 (by omega)
      simpa [List.enum] using h0
    have hfe : jsFromEntries (row.enum.map (fun p => (headers.getD p.1 "undefined", p.2)))
        = row.enum.map (fun p => (headers.getD p.1 "undefined", p.2)) := by
      unfold jsFromEntries
      have h2 := foldl_upsert_nodup (row.enum.map (fun p => (headers.getD p.1 "undefined", p.2))) []
      simp only [List.nil_append] at h2
      exact h2 (by rw [hkeys]; exact hnd)
    rw [hfe, hkeys]

theorem c2_normalize_padding_amended_witness :
    (getRowsRecord ["A ", "B"] ["x"]).map Prod.fst = ["A ", "B"].take 1 :=
  c2_normalize_padding_amended.2.2 ["A ", "B"] ["x"] (by decide) (by decide)

theorem jsFindIndex_ge (p : String → Bool) (l : List String) : -1 ≤ jsFindIndex p l := by
  induction l with
  | nil => simp [jsFindIndex]
  | cons h t ih =>
    simp only [jsFindIndex]
    by_cases hp : p h = true
    · rw [if_pos hp]; decide
    · rw [if_neg hp]
      by_cases hr : jsFindIndex p t = -1
      · rw [if_pos hr]
      · rw [if_neg hr]; omega

theorem jsFindIndex_neg (p : String → Bool) (l : List String) :
    jsFindIndex p l = -1 ↔ ∀ x ∈ l, p x = false := by
  induction l with
  | nil => simp [jsFindIndex]
  | cons h t ih =>
    simp only [jsFindIndex]
    by_cases hp : p h = true
    · rw [if_pos hp]
      constructor
      · intro h0; exact absurd h0 (by decide)
      · intro hall
        exact absurd (hall h (List.mem_cons_self h t)) (by simp [hp])
    · have hp2 : p h = false := by simpa using hp
      rw [if_neg hp]
      by_cases hr : jsFindIndex p t = -1
      · rw [if_pos hr]
        simp only [List.mem_cons, true_iff]
        intro x hx
        rcases hx with rfl | hx
        · exact hp2
        · exact (ih.mp hr) x hx
      · rw [if_neg hr]
        have hge := jsFindIndex_ge p t
        constructor
        · intro hcontra; omega
        · intro hall
          exact absurd (ih.mpr (fun x hx => hall x (List.mem_cons_of_mem _ hx))) hr

theorem jsFindIndex_pos (p : String → Bool) (l : List String) (h : jsFindIndex p l ≠ -1) :
    ∃ i : Nat, jsFindIndex p l = (i : Int) ∧ i < l.length ∧ p (l.getD i "") = true ∧
      ∀ j : Nat, j < i → p (l.getD j "") = false := by
  induction l with
  | nil => simp [jsFindIndex] at h
  | cons hd t ih =>
    by_cases hp : p hd = true
    · refine ⟨0, by simp [jsFindIndex, hp], by simp, by simpa using hp, fun j hj => by omega⟩
    · have hstep : jsFindIndex p (hd :: t) =
          if jsFindIndex p t = -1 then -1 else jsFindIndex p t + 1 := by
        simp [jsFindIndex, hp]
      by_cases hr : jsFindIndex p t = -1
      · rw [hstep, if_pos hr] at h
        exact absurd rfl h
      · obtain ⟨i, hi1, hi2, hi3, hi4⟩ := ih hr
        refine ⟨i + 1, ?_, by simpa using hi2, by simpa using hi3, ?_⟩
        · rw [hstep, if_neg hr, hi1]
          push_cast
          ring
        · intro j hj
          cases j with
          | zero =>
            simpa using hp
          | succ j2 =>
            have := hi4 j2 (by omega)
            simpa using this

theorem findIdx_norm_spec (f : String → String) (hs : List String) (n : String) :
    (jsFindIndex (fun h => f h == f n) hs = -1 ↔ ∀ h ∈ hs, f h ≠ f n)
    ∧ (jsFindIndex (fun h => f h == f n) hs ≠ -1 →
        ∃ i : Nat, jsFindIndex (fun h => f h == f n) hs = (i : Int) ∧ i < hs.length
          ∧ f (hs.getD i "") = f n
          ∧ ∀ j : Nat, j < i → f (hs.getD j "") ≠ f n) := by
  constructor
  · rw [jsFindIndex_neg]
    constructor
    · intro hall h hm
      have := hall h hm
      simpa using this
    · intro hall h hm
      have := hall h hm
      simpa using this
  · intro hne
    obtain ⟨i, h1, h2, h3, h4⟩ := jsFindIndex_pos _ hs hne
    exact ⟨i, h1, h2, by simpa using h3, fun j hj => by simpa using h4 j hj⟩

/-- Claim C5 counterexample: on the header list containing Sales(double
space)person and the wanted name Sales person, the v7.5 findColumn
returns the not-found sentinel -1, because that variant does not
collapse internal whitespace runs; the v8.0 variant finds index 0. -/
theorem c5_whitespace_collapse_counterexample :
    findColumn_v75 ["Sales  person"] "Sales person" = -1
    ∧ findColumn_v8 ["Sales  person"] "Sales person" = 0 := by
  decide

/-- Claim C5 (amended): both findColumn variants compare header and
wanted name after trimming and case-folding, return the index of the
first matching header and signal absence with the sentinel -1, which is
distinct from every valid index; collapsing of internal whitespace runs
is applied only by the v8.0 variant (part_001), not by the v7.5 variant
(part_002). -/
theorem c5_findColumn_amended :
    (∀ (hs : List String) (n : String),
      (findColumn_v75 hs n = -1 ↔ ∀ h ∈ hs, norm_v75 h ≠ norm_v75 n)
      ∧ (findColumn_v75 hs n ≠ -1 →
          ∃ i : Nat, findColumn_v75 hs n = (i : Int) ∧ i < hs.length
            ∧ norm_v75 (hs.getD i "") = norm_v75 n
            ∧ ∀ j : Nat, j < i → norm_v75 (hs.getD j "") ≠ norm_v75 n))
    ∧ (∀ (hs : List String) (n : String),
      (findColumn_v8 hs n = -1 ↔ ∀ h ∈ hs, norm_v8 h ≠ norm_v8 n)
      ∧ (findColumn_v8 hs n ≠ -1 →
          ∃ i : Nat, findColumn_v8 hs n = (i : Int) ∧ i < hs.length
            ∧ norm_v8 (hs.getD i "") = norm_v8 n
            ∧ ∀ j : Nat, j < i → norm_v8 (hs.getD j "") ≠ norm_v8 n))
    ∧ norm_v8 "Sales  person" = norm_v8 "Sales person"
    ∧ norm_v75 "Sales  person" ≠ norm_v75 "Sales person" := by
  exact ⟨fun hs n => findIdx_norm_spec norm_v75 hs n,
    fun hs n => findIdx_norm_spec norm_v8 hs n, by decide, by decide⟩

theorem c5_findColumn_amended_witness :
    findColumn_v75 ["Name", "Phone"] "e-mail" = -1 :=
  (c5_findColumn_amended.1 ["Name", "Phone"] "e-mail").1.mpr (by decide)

theorem sumCounts_cons (p : String × Nat) (l : List (String × Nat)) :
    sumCounts (p :: l) = p.2 + sumCounts l := rfl

theorem countOf_cons (p : String × Nat) (l : List (String × Nat)) (lab : String) :
    countOf (p :: l) lab = if p.1 = lab then p.2 + countOf l lab else countOf l lab := rfl

theorem countLabel_cons (x : String) (l : List String) (lab : String) :
    countLabel lab (x :: l) = if x = lab then countLabel lab l + 1 else countLabel lab l := rfl

theorem bump_sum (l : List (String × Nat)) (k : String) :
    sumCounts (bump l k) = sumCounts l + 1 := by
  induction l with
  | nil => rfl
  | cons p t ih =>
    obtain ⟨k0, c⟩ := p
    by_cases h : k0 = k
    · simp [bump, h, sumCounts_cons]
      omega
    · simp [bump, h, sumCounts_cons, ih]
      omega

theorem bump_count (l : List (String × Nat)) (k lab : String) :
    countOf (bump l k) lab = countOf l lab + (if k = lab then 1 else 0) := by
  induction l with
  | nil =>
    by_cases h : k = lab <;> simp [bump, countOf_cons, h, countOf]
  | cons p t ih =>
    obtain ⟨k0, c⟩ := p
    simp only [bump]
    by_cases h : k0 = k
    · rw [if_pos h]
      simp only [countOf_cons]
      by_cases h2 : k0 = lab
      · have hk : k = lab := by rw [← h]; exact h2
        rw [if_pos h2, if_pos h2, if_pos hk]
        omega
      · have hk : k ≠ lab := by rw [← h]; exact h2
        rw [if_neg h2, if_neg h2, if_neg hk]
        omega
    · rw [if_neg h]
      simp only [countOf_cons, ih]
      by_cases h2 : k0 = lab
      · rw [if_pos h2, if_pos h2]
        omega
      · rw [if_neg h2, if_neg h2]

theorem insertDesc_sum (x : String × Nat) (l : List (String × Nat)) :
    sumCounts (insertDesc x l) = x.2 + sumCounts l := by
  induction l with
  | nil => rfl
  | cons y t ih =>
    by_cases h : y.2 < x.2 <;> simp [insertDesc, h, sumCounts_cons, ih] <;> omega

theorem insertDesc_count (x : String × Nat) (l : List (String × Nat)) (lab : String) :
    countOf (insertDesc x l) lab = countOf (x :: l) lab := by
  induction l with
  | nil => rfl
  | cons y t ih =>
    by_cases h : y.2 < x.2
    · simp [insertDesc, h]
    · simp only [insertDesc, if_neg h, countOf_cons, ih]
      by_cases h1 : y.1 = lab <;> by_cases h2 : x.1 = lab <;> simp [h1, h2] <;> omega

theorem insertDesc_mem (x y : String × Nat) (l : List (String × Nat)) :
    y ∈ insertDesc x l ↔ y = x ∨ y ∈ l := by
  induction l with
  | nil => simp [insertDesc]
  | cons z t ih =>
    by_cases h : z.2 < x.2
    · simp [insertDesc, h]
    · simp [insertDesc, h, ih]
      tauto

theorem insertDesc_sorted (x : String × Nat) (l : List (String × Nat))
    (h : List.Pairwise (fun a b : String × Nat => b.2 ≤ a.2) l) :
    List.Pairwise (fun a b : String × Nat => b.2 ≤ a.2) (insertDesc x l) := by
  induction l with
  | nil => simp [insertDesc]
  | cons y t ih =>
    rcases h with _ | ⟨hy, ht⟩
    by_cases hlt : y.2 < x.2
    · simp only [insertDesc, if_pos hlt]
      refine List.Pairwise.cons ?_ (List.Pairwise.cons hy ht)
      intro b hb
      rcases List.mem_cons.mp hb with rfl | hb
      · omega
      · have := hy b hb
        omega
    · simp only [insertDesc, if_neg hlt]
      refine List.Pairwise.cons ?_ (ih ht)
      intro b hb
      rcases (insertDesc_mem x b t).mp hb with rfl | hb
      · omega
      · exact hy b hb

theorem sortDesc_go_sum (l acc : List (String × Nat)) :
    sumCounts (l.foldl (fun acc x => insertDesc x acc) acc) = sumCounts acc + sumCounts l := by
  induction l generalizing acc with
  | nil => simp [sumCounts]
  | cons x t ih =>
    rw [List.foldl_cons, ih, insertDesc_sum, sumCounts_cons]
    omega

theorem sortDesc_sum (l : List (String × Nat)) : sumCounts (sortDesc l) = sumCounts l := by
  unfold sortDesc
  rw [sortDesc_go_sum]
  exact Nat.zero_add _

theorem sortDesc_go_count (l acc : List (String × Nat)) (lab : String) :
    countOf (l.foldl (fun acc x => insertDesc x acc) acc) lab = countOf acc lab + countOf l lab := by
  induction l generalizing acc with
  | nil => simp [countOf]
  | cons x t ih =>
    rw [List.foldl_cons, ih, insertDesc_count, countOf_cons, countOf_cons]
    by_cases h : x.1 = lab <;> simp [h] <;> omega

theorem sortDesc_count (l : List (String × Nat)) (lab : String) :
    countOf (sortDesc l) lab = countOf l lab := by
  unfold sortDesc
  rw [sortDesc_go_count]
  exact Nat.zero_add _

theorem sortDesc_go_sorted (l acc : List (String × Nat))
    (h : List.Pairwise (fun a b : String × Nat => b.2 ≤ a.2) acc) :
    List.Pairwise (fun a b : String × Nat => b.2 ≤ a.2)
      (l.foldl (fun acc x => insertDesc x acc) acc) := by
  induction l generalizing acc with
  | nil => exact h
  | cons x t ih =>
    rw [List.foldl_cons]
    exact ih _ (insertDesc_sorted x acc h)

theorem sortDesc_sorted (l : List (String × Nat)) :
    List.Pairwise (fun a b : String × Nat => b.2 ≤ a.2) (sortDesc l) :=
  sortDesc_go_sorted l [] List.Pairwise.nil

theorem insertDesc_filter (x : String × Nat) (l : List (String × Nat))
    (hs : List.Pairwise (fun a b : String × Nat => b.2 ≤ a.2) l) (c : Nat) :
    (insertDesc x l).filter (fun p => p.2 = c) =
      if x.2 = c then l.filter (fun p => p.2 = c) ++ [x]
      else l.filter (fun p => p.2 = c) := by
  induction l with
  | nil => by_cases h : x.2 = c <;> simp [insertDesc, h]
  | cons y t ih =>
    rcases hs with _ | ⟨hy, ht⟩
    by_cases hlt : y.2 < x.2
    · simp only [insertDesc, if_pos hlt]
      by_cases hx : x.2 = c
      · have hfilter : (y :: t).filter (fun p => decide (p.2 = c)) = [] := by
          rw [List.filter_eq_nil_iff]
          intro p hp
          rcases List.mem_cons.mp hp with rfl | hp2
          · simp
            omega
          · have := hy p hp2
            simp
            omega
        rw [if_pos hx]
        rw [List.filter_cons_of_pos (by simp [hx])]
        rw [hfilter]
        simp
      · rw [if_neg hx]
        rw [List.filter_cons_of_neg (by simp [hx])]
    · simp only [insertDesc, if_neg hlt]
      by_cases hyc : y.2 = c
      · rw [List.filter_cons_of_pos (by simp [hyc]), List.filter_cons_of_pos (by simp [hyc]),
          ih ht]
        by_cases hx : x.2 = c
        · rw [if_pos hx, if_pos hx]
          simp
        · rw [if_neg hx, if_neg hx]
      · rw [List.filter_cons_of_neg (by simp [hyc]), List.filter_cons_of_neg (by simp [hyc]),
          ih ht]

theorem sortDesc_go_filter (l : List (String × Nat)) (c : Nat) :
    ∀ acc : List (String × Nat),
      List.Pairwise (fun a b : String × Nat => b.2 ≤ a.2) acc →
      (l.foldl (fun acc x => insertDesc x acc) acc).filter (fun p => p.2 = c) =
        acc.filter (fun p => p.2 = c) ++ l.filter (fun p => p.2 = c) := by
  induction l with
  | nil => intro acc _; simp
  | cons x t ih =>
    intro acc hacc
    rw [List.foldl_cons, ih _ (insertDesc_sorted x acc hacc), insertDesc_filter x acc hacc]
    by_cases hx : x.2 = c
    · rw [if_pos hx, List.filter_cons_of_pos (by simp [hx])]
      simp
    · rw [if_neg hx, List.filter_cons_of_neg (by simp [hx])]

theorem sortDesc_filter (l : List (String × Nat)) (c : Nat) :
    (sortDesc l).filter (fun p => p.2 = c) = l.filter (fun p => p.2 = c) := by
  unfold sortDesc
  rw [sortDesc_go_filter l c [] List.Pairwise.nil]
  rfl

theorem foldl_bump_sum (labels : List String) : ∀ acc : List (String × Nat),
    sumCounts (labels.foldl bump acc) = sumCounts acc + labels.length := by
  induction labels with
  | nil => intro acc; simp
  | cons x t ih =>
    intro acc
    rw [List.foldl_cons, ih, bump_sum]
    simp
    omega

theorem foldl_bump_count (labels : List String) : ∀ (acc : List (String × Nat)) (lab : String),
    countOf (labels.foldl bump acc) lab = countOf acc lab + countLabel lab labels := by
  induction labels with
  | nil => intro acc lab; simp [countLabel]
  | cons x t ih =>
    intro acc lab
    rw [List.foldl_cons, ih, bump_count, countLabel_cons]
    by_cases h : x = lab <;> simp [h] <;> omega

theorem handler_inner_foldl (names : List String) : ∀ acc : List (String × Nat),
    names.foldl (fun a n => if jsTrim n ≠ "" then bump a (jsTrim n) else a) acc =
      ((names.map jsTrim).filter (fun n => n ≠ "")).foldl bump acc := by
  induction names with
  | nil => intro acc; rfl
  | cons x t ih =>
    intro acc
    rw [List.foldl_cons, List.map_cons]
    by_cases h : jsTrim x = ""
    · rw [List.filter_cons_of_neg (by simp [h])]
      simp only [h]
      rw [if_neg (by simp), ih]
    · rw [List.filter_cons_of_pos (by simp [h])]
      rw [if_pos (by simp [h]), ih, List.foldl_cons]

theorem handlersCounts_eq (rows : List (String × String)) :
    handlersCounts rows = (handlerFragments rows).foldl bump [] := by
  unfold handlersCounts handlerFragments
  generalize hacc : ([] : List (String × Nat)) = acc
  clear hacc
  induction rows generalizing acc with
  | nil => rfl
  | cons r t ih =>
    rw [List.foldl_cons, List.flatMap_cons, List.foldl_append, handler_inner_foldl, ih]

/-- Claim C6: in the /analysis countBy aggregator every record is counted
in exactly one bucket: the count of each label equals the number of
records mapped to it, the bucket counts sum to the record count, and a
record whose cell at the key is absent or the empty string is bucketed
under the literal Unknown label. -/
theorem c6_countBy_total :
    ∀ (data : List (List (String × String))) (key : String),
      sumCounts (countBy data key) = data.length
      ∧ (∀ lab, countOf (countBy data key) lab =
          countLabel lab (data.map (fun r => bucketLabel (r.lookup key))))
      ∧ (∀ r ∈ data, (r.lookup key = none ∨ r.lookup key = some "") →
          bucketLabel (r.lookup key) = "Unknown") := by
  intro data key
  have heq : data.foldl (fun acc r => bump acc (bucketLabel (r.lookup key))) [] =
      (data.map (fun r => bucketLabel (r.lookup key))).foldl bump [] := by
    rw [List.foldl_map]
  refine ⟨?_, ?_, ?_⟩
  · unfold countBy
    rw [sortDesc_sum, heq, foldl_bump_sum]
    simp [sumCounts]
  · intro lab
    unfold countBy
    rw [sortDesc_count, heq, foldl_bump_count]
    exact Nat.zero_add _
  · intro r _ hcell
    rcases hcell with h | h <;> rw [h] <;> decide

theorem c6_countBy_total_witness :
    bucketLabel (List.lookup "k" [("k", "")]) = "Unknown" :=
  (c6_countBy_total [[("k", "")]] "k").2.2 [("k", "")] (by simp) (by decide)

/-- Claim C10: in the /analysis countBy aggregator a non-empty cell made
only of whitespace is bucketed under the empty-string label rather than
Unknown, because the Unknown substitution runs before the trim; only an
absent cell or one that is exactly the empty string gets the Unknown
label, and the two labels are distinct. -/
theorem c10_whitespace_blank :
    ∀ v : String, v ≠ "" → jsTrim v = "" →
      bucketLabel (some v) = ""
      ∧ bucketLabel none = "Unknown"
      ∧ bucketLabel (some "") = "Unknown"
      ∧ ("" : String) ≠ "Unknown"
      ∧ ∀ key : String, countBy [[(key, v)]] key = [("", 1)] := by
  intro v hv ht
  have hlab : bucketLabel (some v) = "" := by
    show jsTrim (if v = "" then "Unknown" else v) = ""
    rw [if_neg hv]
    exact ht
  refine ⟨hlab, by decide, by decide, by decide, ?_⟩
  intro key
  unfold countBy
  have hlook : List.lookup key [(key, v)] = some v := by simp
  simp only [List.foldl_cons, List.foldl_nil, hlook, hlab]
  rfl

theorem c10_whitespace_blank_witness :
    bucketLabel (some " ") = "" ∧ countBy [[("k", " ")]] "k" = [("", 1)] :=
  ⟨(c10_whitespace_blank " " (by decide) (by decide)).1,
   (c10_whitespace_blank " " (by decide) (by decide)).2.2.2.2 "k"⟩

/-- Claim C8 counterexample: the /handlers leaderboard does not split
handler cells on the slash: a cell A/B produces the single bucket
labelled A/B and no bucket labelled A. -/
theorem c8_no_slash_split_counterexample :
    handlersLeaderboard [("A/B", "")] = [("A/B", 1)]
    ∧ countOf (handlersLeaderboard [("A/B", "")]) "A" = 0 := by
  decide

/-- Claim C8 (amended): in the /handlers leaderboard the handler names
from the two columns are split on comma and ampersand only (not on the
slash, which only the /socialmedia per-handler breakdown uses), trimmed,
with empty fragments dropped; each fragment occurrence increments its
bucket, so each bucket count equals the number of matching fragments,
and the resulting buckets are sorted descending by count with ties kept
in first-seen bucket order. -/
theorem c8_handlers_amended :
    ∀ rows : List (String × String),
      (∀ nm, countOf (handlersLeaderboard rows) nm = countLabel nm (handlerFragments rows))
      ∧ List.Pairwise (fun a b : String × Nat => b.2 ≤ a.2) (handlersLeaderboard rows)
      ∧ (∀ cnum : Nat, (handlersLeaderboard rows).filter (fun p => p.2 = cnum) =
          (handlersCounts rows).filter (fun p => p.2 = cnum)) := by
  intro rows
  refine ⟨?_, sortDesc_sorted _, fun cnum => sortDesc_filter _ cnum⟩
  intro nm
  unfold handlersLeaderboard
  rw [sortDesc_count, handlersCounts_eq, foldl_bump_count]
  exact Nat.zero_add _

/-- Claim C7: the last-N-days period filter with N = 7 keeps a parsed
record date exactly when it lies in the window [now minus 7 days, now],
inclusive at both ends: the 7-days-ago boundary instant is kept, an
8-days-ago instant is not, and an unparseable timestamp (absent date)
never matches. -/
theorem c7_week_filter :
    ∀ (now t : Int),
      (matchesPeriodDays now 7 (some t) = true ↔ now - 7 * msPerDay ≤ t ∧ t ≤ now)
      ∧ matchesPeriodDays now 7 (some (now - 7 * msPerDay)) = true
      ∧ matchesPeriodDays now 7 (some (now - 8 * msPerDay)) = false
      ∧ matchesPeriodDays now 7 none = false := by
  intro now t
  refine ⟨?_, ?_, ?_, rfl⟩
  · simp [matchesPeriodDays, withinRange]
  · simp only [matchesPeriodDays, withinRange, msPerDay, Bool.and_eq_true, decide_eq_true_eq]
    omega
  · simp only [matchesPeriodDays, withinRange, msPerDay, Bool.and_eq_true, decide_eq_true_eq]
    simp only [Bool.and_eq_false_iff, decide_eq_false_iff_not]
    left
    omega

theorem c7_week_filter_witness :
    matchesPeriodDays 0 7 (some (0 - 7 * msPerDay)) = true
    ∧ matchesPeriodDays 0 7 (some (0 - 8 * msPerDay)) = false
    ∧ matchesPeriodDays 0 7 none = false :=
  ⟨(c7_week_filter 0 0).2.1, (c7_week_filter 0 0).2.2.1, (c7_week_filter 0 0).2.2.2⟩

/-- Claim C9: the sentiment classifier returns Positive for any text
whose lower-cased form contains a positive keyword, even when follow-up
keywords are also present (as in the sample sentence, which contains
both), and empty text yields Neutral. -/
theorem c9_sentiment_positive :
    (∀ t : String, posHit (jsToLower t) = true → getSentiment t = "Positive")
    ∧ getSentiment "" = "Neutral"
    ∧ getSentiment "He was very interested but needs a follow up call" = "Positive"
    ∧ followHit (jsToLower "He was very interested but needs a follow up call") = true := by
  refine ⟨?_, by decide, by decide, by decide⟩
  intro t h
  have ht : t ≠ "" := by
    intro h0
    subst h0
    exact absurd h (by decide)
  simp [getSentiment, ht, h]

theorem c9_sentiment_positive_witness :
    getSentiment "Booked!" = "Positive" :=
  c9_sentiment_positive.1 "Booked!" (by decide)
